import Mathlib

/-!
Shallow embedding of `custom_components/hacs/hacsbase/__init__.py` (HACS base
class): the repository registry lookups, the critical-repository guard, the
blacklist enforcer, and the three reconciliation sweeps.  External
collaborators (remote feeds, the persistent store, the event bus, the task
runner) are modelled as explicit inputs and as an emitted event trace.
-/

/-- Lowercasing of a full name, modelling Python `str.lower()` (character-wise
lowercasing). -/
def lowerStr (s : String) : String := String.mk (s.data.map Char.toLower)

/-- Boolean case-insensitive name comparison, modelling
`a.lower() == b.lower()`. -/
def lowerEq (a b : String) : Bool := lowerStr a == lowerStr b

/-- One registry entry.  `uid` models `repository.information.uid`,
`full_name` models `repository.data.full_name`, `installed` models the
`installed` / `status.installed` flag, `category` models
`repository.data.category`. -/
structure Repository where
  uid : Nat
  full_name : String
  category : String
  installed : Bool
deriving Repr, DecidableEq

/-- A critical advisory as fetched from the remote feed: one JSON object with
`repository`, `reason` and `link` fields. -/
structure Advisory where
  repository : String
  reason : String
  link : String
deriving Repr, DecidableEq

/-- A persisted critical record, as saved to the `"critical"` store:
`{repository, reason, link, acknowledged}`. -/
structure StoredCritical where
  repository : String
  reason : String
  link : String
  acknowledged : Bool
deriving Repr, DecidableEq

/-- Observable effects emitted by the core, in order. -/
inductive Event where
  | forcedUninstall (name : String)
  | requestRestart
  | saveCritical
  | dataWrite
  | statusFire
  | reloadFire
  | repositoryFire
  | warn (name : String)
  | urgentAlert
deriving Repr, DecidableEq

/-- The mutable state of the `Hacs` object that the embedded operations
touch: `repositories`, `common.blacklist`, `common.default`,
`common.categories`, the persisted `"critical"` store (a missing store is
the empty list, matching `stored_critical or []` / `if not critical`),
and `system.status.background_task`. -/
structure HacsState where
  repositories : List Repository
  blacklist : List String
  default : List String
  categories : List String
  storedCritical : List StoredCritical
  background_task : Bool
deriving Repr, DecidableEq

/-- Translation of `Hacs.get_by_id`: linear scan, `None` when absent (the
`try/except` around the loop only suppresses attribute errors, which the
embedding has none of). -/
def get_by_id (repos : List Repository) (repository_id : Nat) : Option Repository :=
  match repos with
  | [] => none
  | r :: rest => if r.uid == repository_id then some r else get_by_id rest repository_id

/-- Translation of `Hacs.get_by_name`: first entry whose full name matches
case-insensitively, `None` when absent. -/
def get_by_name (repos : List Repository) (repository_full_name : String) :
    Option Repository :=
  match repos with
  | [] => none
  | r :: rest =>
    if lowerEq r.full_name repository_full_name then some r
    else get_by_name rest repository_full_name

/-- Translation of `Hacs.is_known`:
`repository_full_name.lower() in [x.data.full_name.lower() for x in self.repositories]`. -/
def is_known (repos : List Repository) (repository_full_name : String) : Bool :=
  (repos.map (fun r => lowerStr r.full_name)).contains (lowerStr repository_full_name)

/-- The argument record with which `Hacs.register_repository` invokes the
underlying helper `register_repository(full_name, category, check=True)`. -/
structure RegisterCall where
  full_name : String
  category : String
  check : Bool
deriving Repr, DecidableEq

/-- Translation of `Hacs.register_repository`: it forwards to the helper with
the literal `check=True`, whatever `check` the caller passed. -/
def register_repository (full_name category : String) (check : Bool) : RegisterCall :=
  { full_name := full_name, category := category, check := true }

/-- Translation of `Hacs.handle_critical_repositories_startup`: load the
`"critical"` store, return early when it is empty, alert when any record is
unacknowledged. -/
def handle_critical_repositories_startup (st : HacsState) : HacsState × List Event :=
  let critical := st.storedCritical
  if critical.isEmpty then (st, [])
  else if critical.any (fun repo => !repo.acknowledged) then (st, [Event.urgentAlert])
  else (st, [])

/-- Modelled from the spec: `repo.remove()` is defined outside this file; per
the spec (glossary: forced uninstall = uninstalling + unregistering, and
§4.4: unregister it from the registry) it removes the entry — the first
case-insensitive name match, which is the entry `get_by_name` returned —
from the registry list. -/
def removeByName (repos : List Repository) (name : String) : List Repository :=
  match repos with
  | [] => []
  | r :: rest =>
    if lowerEq r.full_name name then rest else r :: removeByName rest name

/-- The `repo is not None and repo.installed` test of
`handle_critical_repositories`, against a given registry. -/
def knownInstalled (repos : List Repository) (name : String) : Bool :=
  match get_by_name repos name with
  | some r => r.installed
  | none => false

/-- Accumulator for the advisory loop of `handle_critical_repositories`. -/
structure CriticalAcc where
  repos : List Repository
  blacklist : List String
  storedNew : List StoredCritical
  was_installed : Bool
  events : List Event
deriving Repr

/-- One iteration of the `for repository in critical` loop of
`handle_critical_repositories`: append the name to the blacklist, build the
record with `acknowledged=True`, and when the name is not in the previously
stored set and the repository is known and installed, force-remove it, flip
the record to `acknowledged=False` and remember that an uninstall happened. -/
def criticalStep (instored : List String) (acc : CriticalAcc) (adv : Advisory) :
    CriticalAcc :=
  let bl := acc.blacklist ++ [adv.repository]
  if !(instored.contains adv.repository) && knownInstalled acc.repos adv.repository then
    { repos := removeByName acc.repos adv.repository
      blacklist := bl
      storedNew := acc.storedNew ++
        [{ repository := adv.repository, reason := adv.reason, link := adv.link,
           acknowledged := false }]
      was_installed := true
      events := acc.events ++ [Event.forcedUninstall adv.repository] }
  else
    { acc with
      blacklist := bl
      storedNew := acc.storedNew ++
        [{ repository := adv.repository, reason := adv.reason, link := adv.link,
           acknowledged := true }] }

/-- Translation of `Hacs.handle_critical_repositories`.  `fetch` is the
outcome of `data_repo.get_contents("critical")`: `none` models an
`AIOGitHubException` (caught, leaving `critical = []`).  An empty list
returns early.  Otherwise the advisory loop runs, the new record list
replaces the `"critical"` store, and a restart is requested when at least
one forced uninstall happened. -/
def handle_critical_repositories (st : HacsState) (fetch : Option (List Advisory)) :
    HacsState × List Event :=
  let critical := fetch.getD []
  if critical.isEmpty then (st, [])
  else
    let instored := st.storedCritical.map (fun stored => stored.repository)
    let acc := critical.foldl (criticalStep instored)
      { repos := st.repositories, blacklist := st.blacklist, storedNew := [],
        was_installed := false, events := [] }
    ({ st with
        repositories := acc.repos
        blacklist := acc.blacklist
        storedCritical := acc.storedNew },
      acc.events ++ [Event.saveCritical] ++
        if acc.was_installed then [Event.requestRestart] else [])

/-! Registry lookup lemmas. -/

theorem get_by_id_none_of_absent (repos : List Repository) (i : Nat)
    (h : ∀ r ∈ repos, r.uid ≠ i) : get_by_id repos i = none := by
  induction repos with
  | nil => rfl
  | cons r rest ih =>
    have hr : (r.uid == i) = false := by
      simpa using h r (List.mem_cons_self r rest)
    simp only [get_by_id, hr, Bool.false_eq_true, if_false]
    exact ih fun x hx => h x (List.mem_cons_of_mem _ hx)

theorem get_by_name_none_of_absent (repos : List Repository) (name : String)
    (h : ∀ r ∈ repos, lowerStr r.full_name ≠ lowerStr name) :
    get_by_name repos name = none := by
  induction repos with
  | nil => rfl
  | cons r rest ih =>
    have hr : lowerEq r.full_name name = false := by
      simpa [lowerEq] using h r (List.mem_cons_self r rest)
    simp only [get_by_name, hr, Bool.false_eq_true, if_false]
    exact ih fun x hx => h x (List.mem_cons_of_mem _ hx)

theorem get_by_name_some (repos : List Repository) (name : String) (r : Repository)
    (h : get_by_name repos name = some r) :
    r ∈ repos ∧ lowerStr r.full_name = lowerStr name := by
  induction repos with
  | nil => simp [get_by_name] at h
  | cons x rest ih =>
    by_cases hx : lowerEq x.full_name name
    · simp only [get_by_name, hx, if_true] at h
      cases h
      exact ⟨List.mem_cons_self _ _, by simpa [lowerEq] using hx⟩
    · simp only [get_by_name, hx, Bool.false_eq_true, if_false] at h
      have := ih h
      exact ⟨List.mem_cons_of_mem _ this.1, this.2⟩

theorem is_known_iff (repos : List Repository) (name : String) :
    is_known repos name = true ↔ ∃ r ∈ repos, lowerStr r.full_name = lowerStr name := by
  unfold is_known
  simp [List.mem_map, eq_comm]

theorem get_by_name_isSome_of_match (repos : List Repository) (name : String)
    (r : Repository) (hmem : r ∈ repos) (hname : lowerStr r.full_name = lowerStr name) :
    ∃ x, get_by_name repos name = some x := by
  induction repos with
  | nil => cases hmem
  | cons x rest ih =>
    by_cases hx : lowerEq x.full_name name
    · exact ⟨x, by simp [get_by_name, hx]⟩
    · rcases List.mem_cons.mp hmem with h | h
      · subst h
        simp [lowerEq, hname] at hx
      · rcases ih h with ⟨y, hy⟩
        exact ⟨y, by simp [get_by_name, hx, hy]⟩

/-- C9: registry lookups return an absent result rather than raising when no
entry matches, and name lookup and membership are case-insensitive: a name
matches an entry whenever the two names are equal up to letter case. -/
theorem lookup_absent_and_case_insensitive (repos : List Repository) (i : Nat)
    (name : String) :
    ((∀ r ∈ repos, r.uid ≠ i) → get_by_id repos i = none)
    ∧ ((∀ r ∈ repos, lowerStr r.full_name ≠ lowerStr name) →
        get_by_name repos name = none)
    ∧ (is_known repos name = true ↔ ∃ r ∈ repos, lowerStr r.full_name = lowerStr name)
    ∧ (∀ r, get_by_name repos name = some r →
        r ∈ repos ∧ lowerStr r.full_name = lowerStr name)
    ∧ (∀ r ∈ repos, lowerStr r.full_name = lowerStr name →
        is_known repos name = true ∧ ∃ x, get_by_name repos name = some x) :=
  ⟨get_by_id_none_of_absent repos i,
   get_by_name_none_of_absent repos name,
   is_known_iff repos name,
   get_by_name_some repos name,
   fun r hmem hname =>
     ⟨(is_known_iff repos name).mpr ⟨r, hmem, hname⟩,
      get_by_name_isSome_of_match repos name r hmem hname⟩⟩

/-- Demo registry used by witnesses. -/
def demoRepos : List Repository :=
  [{ uid := 1, full_name := "Alice/theme-x", category := "theme", installed := true },
   { uid := 2, full_name := "bob/plugin-y", category := "plugin", installed := false }]

theorem lookup_absent_and_case_insensitive_witness :
    get_by_id demoRepos 99 = none
    ∧ get_by_name demoRepos "nobody/xyz" = none
    ∧ is_known demoRepos "ALICE/THEME-X" = true :=
  ⟨(lookup_absent_and_case_insensitive demoRepos 99 "nobody/xyz").1 (by decide),
   (lookup_absent_and_case_insensitive demoRepos 99 "nobody/xyz").2.1 (by decide),
   ((lookup_absent_and_case_insensitive demoRepos 99 "ALICE/THEME-X").2.2.2.2
      { uid := 1, full_name := "Alice/theme-x", category := "theme", installed := true }
      (by decide) (by decide)).1⟩

/-- C10: `Hacs.register_repository` invokes the underlying registration helper
with `check=True` regardless of the caller-supplied `check` argument, so that
argument has no effect on behaviour. -/
theorem register_repository_check_forced (full_name category : String) (check : Bool) :
    (register_repository full_name category check).check = true
    ∧ register_repository full_name category check =
        register_repository full_name category true :=
  ⟨rfl, rfl⟩

/-- C5: when the remote critical fetch fails (`AIOGitHubException`) or yields
an empty list, `handle_critical_repositories` returns early: no exception, no
forced uninstall, no restart request, no event at all, and the state —
including the persisted advisory store — is unchanged. -/
theorem critical_fetch_failure_noop (st : HacsState) :
    handle_critical_repositories st none = (st, [])
    ∧ handle_critical_repositories st (some []) = (st, []) :=
  ⟨rfl, rfl⟩

theorem startup_alert_events (st : HacsState) :
    handle_critical_repositories_startup st =
      (st, if st.storedCritical.any (fun repo => !repo.acknowledged)
           then [Event.urgentAlert] else []) := by
  unfold handle_critical_repositories_startup
  rcases hc : st.storedCritical with _ | ⟨r, rest⟩
  · simp
  · by_cases ha : (r :: rest).any (fun repo => !repo.acknowledged) <;> simp [ha]

/-- C8: the startup check raises the urgent alert exactly when the persisted
advisory store holds an unacknowledged record (so in particular it is
non-empty), and it mutates nothing: registry, blacklist and the persisted
store are returned unchanged. -/
theorem startup_alert_readonly_iff (st : HacsState) :
    (handle_critical_repositories_startup st).1 = st
    ∧ (Event.urgentAlert ∈ (handle_critical_repositories_startup st).2 ↔
        ∃ rec ∈ st.storedCritical, rec.acknowledged = false) := by
  rw [startup_alert_events st]
  refine ⟨rfl, ?_⟩
  by_cases ha : st.storedCritical.any (fun repo => !repo.acknowledged)
  · rcases List.any_eq_true.mp ha with ⟨r, hr, hneg⟩
    simp only [ha, if_true, List.mem_singleton, true_iff]
    exact ⟨r, hr, by simpa using hneg⟩
  · simp only [ha, Bool.false_eq_true, if_false, List.not_mem_nil, false_iff]
    rintro ⟨r, hr, hack⟩
    exact ha (List.any_eq_true.mpr ⟨r, hr, by simp [hack]⟩)

/-! Congruence helpers for folds whose step rewrites the registry. -/

theorem mapCongrOn {α β : Type _} (f g : α → β) :
    ∀ l : List α, (∀ a ∈ l, f a = g a) → l.map f = l.map g := by
  intro l
  induction l with
  | nil => intro _; rfl
  | cons a rest ih =>
    intro h
    simp only [List.map_cons]
    rw [h a (List.mem_cons_self a rest), ih fun x hx => h x (List.mem_cons_of_mem _ hx)]

theorem filterCongrOn {α : Type _} (p q : α → Bool) :
    ∀ l : List α, (∀ a ∈ l, p a = q a) → l.filter p = l.filter q := by
  intro l
  induction l with
  | nil => intro _; rfl
  | cons a rest ih =>
    intro h
    simp only [List.filter_cons]
    rw [h a (List.mem_cons_self a rest), ih fun x hx => h x (List.mem_cons_of_mem _ hx)]

theorem anyCongrOn {α : Type _} (p q : α → Bool) :
    ∀ l : List α, (∀ a ∈ l, p a = q a) → l.any p = l.any q := by
  intro l
  induction l with
  | nil => intro _; rfl
  | cons a rest ih =>
    intro h
    simp only [List.any_cons]
    rw [h a (List.mem_cons_self a rest), ih fun x hx => h x (List.mem_cons_of_mem _ hx)]

/-! Invariance of lookups under removal of a differently-named entry. -/

theorem get_by_name_removeByName (repos : List Repository) (n m : String)
    (h : lowerStr n ≠ lowerStr m) :
    get_by_name (removeByName repos n) m = get_by_name repos m := by
  induction repos with
  | nil => rfl
  | cons r rest ih =>
    by_cases hr : lowerEq r.full_name n
    · have hrn : lowerStr r.full_name = lowerStr n := by simpa [lowerEq] using hr
      have hm : lowerEq r.full_name m = false := by
        simp only [lowerEq, hrn, beq_eq_false_iff_ne, ne_eq]
        exact h
      simp [removeByName, get_by_name, hr, hm]
    · by_cases hm : lowerEq r.full_name m
      · simp [removeByName, get_by_name, hr, hm]
      · simp [removeByName, get_by_name, hr, hm, ih]

theorem knownInstalled_removeByName (repos : List Repository) (n m : String)
    (h : lowerStr n ≠ lowerStr m) :
    knownInstalled (removeByName repos n) m = knownInstalled repos m := by
  unfold knownInstalled
  rw [get_by_name_removeByName repos n m h]

/-- The condition under which `handle_critical_repositories` force-removes:
the advisory name is not in the previously stored set and the repository is
known and currently installed. -/
def newCritical (instored : List String) (repos : List Repository) (adv : Advisory) :
    Bool :=
  !(instored.contains adv.repository) && knownInstalled repos adv.repository

theorem newCritical_eq_step_cond (instored : List String) (repos : List Repository)
    (adv : Advisory) :
    (!(instored.contains adv.repository) && knownInstalled repos adv.repository) =
      newCritical instored repos adv := rfl

theorem newCritical_iff (instored : List String) (repos : List Repository)
    (adv : Advisory) :
    newCritical instored repos adv = true ↔
      (adv.repository ∉ instored
        ∧ ∃ r, get_by_name repos adv.repository = some r ∧ r.installed = true) := by
  unfold newCritical knownInstalled
  cases hg : get_by_name repos adv.repository <;>
    simp [hg, List.contains, List.elem_eq_mem]

/-! Characterization of the advisory loop. -/

theorem criticalFold_blacklist (instored : List String) :
    ∀ (critical : List Advisory) (acc : CriticalAcc),
      (critical.foldl (criticalStep instored) acc).blacklist =
        acc.blacklist ++ critical.map (fun adv => adv.repository) := by
  intro critical
  induction critical with
  | nil => intro acc; simp
  | cons a rest ih =>
    intro acc
    rw [List.foldl_cons, ih]
    unfold criticalStep
    split <;> simp

theorem criticalFold_storedNew_names (instored : List String) :
    ∀ (critical : List Advisory) (acc : CriticalAcc),
      ((critical.foldl (criticalStep instored) acc).storedNew.map
          (fun s => s.repository)) =
        acc.storedNew.map (fun s => s.repository) ++
          critical.map (fun adv => adv.repository) := by
  intro critical
  induction critical with
  | nil => intro acc; simp
  | cons a rest ih =>
    intro acc
    rw [List.foldl_cons, ih]
    unfold criticalStep
    split <;> simp

theorem criticalFold_all_instored (instored : List String) :
    ∀ (critical : List Advisory),
      (∀ adv ∈ critical, instored.contains adv.repository = true) →
      ∀ acc : CriticalAcc,
        (critical.foldl (criticalStep instored) acc).events = acc.events
        ∧ (critical.foldl (criticalStep instored) acc).was_installed =
            acc.was_installed := by
  intro critical
  induction critical with
  | nil => intro _ acc; exact ⟨rfl, rfl⟩
  | cons a rest ih =>
    intro h acc
    have ha : instored.contains a.repository = true := h a (List.mem_cons_self a rest)
    have hc : (!(instored.contains a.repository) && knownInstalled acc.repos a.repository)
        = false := by
      rw [ha]
      rfl
    rw [List.foldl_cons]
    have hstep : criticalStep instored acc a =
        { acc with
          blacklist := acc.blacklist ++ [a.repository]
          storedNew := acc.storedNew ++
            [{ repository := a.repository, reason := a.reason, link := a.link,
               acknowledged := true }] } := by
      rw [criticalStep]
      simp only [hc, Bool.false_eq_true, if_false]
    rw [hstep]
    exact ih (fun x hx => h x (List.mem_cons_of_mem _ hx)) _

theorem criticalFold_characterization (instored : List String) :
    ∀ (critical : List Advisory) (repos : List Repository) (bl : List String)
      (sn : List StoredCritical) (wi : Bool) (ev : List Event),
      ((critical.map (fun adv => lowerStr adv.repository)).Nodup) →
      ((critical.foldl (criticalStep instored)
          { repos := repos, blacklist := bl, storedNew := sn, was_installed := wi,
            events := ev }).storedNew =
        sn ++ critical.map (fun adv =>
          { repository := adv.repository, reason := adv.reason, link := adv.link,
            acknowledged := !(newCritical instored repos adv) })
      ∧ (critical.foldl (criticalStep instored)
          { repos := repos, blacklist := bl, storedNew := sn, was_installed := wi,
            events := ev }).events =
        ev ++ (critical.filter (newCritical instored repos)).map
          (fun adv => Event.forcedUninstall adv.repository)
      ∧ (critical.foldl (criticalStep instored)
          { repos := repos, blacklist := bl, storedNew := sn, was_installed := wi,
            events := ev }).was_installed =
        (wi || critical.any (newCritical instored repos))) := by
  intro critical
  induction critical with
  | nil => intro repos bl sn wi ev _; simp
  | cons a rest ih =>
    intro repos bl sn wi ev hnd
    have hnd' : ((rest.map (fun adv => lowerStr adv.repository)).Nodup) :=
      (List.nodup_cons.mp (by simpa using hnd)).2
    have hna : ∀ b ∈ rest, lowerStr a.repository ≠ lowerStr b.repository := by
      intro b hb heq
      exact (List.nodup_cons.mp (by simpa using hnd)).1
        (List.mem_map.mpr ⟨b, hb, heq.symm⟩)
    rw [List.foldl_cons]
    cases hc : newCritical instored repos a
    · have hstep : criticalStep instored
          { repos := repos, blacklist := bl, storedNew := sn, was_installed := wi,
            events := ev } a =
          { repos := repos, blacklist := bl ++ [a.repository],
            storedNew := sn ++
              [{ repository := a.repository, reason := a.reason, link := a.link,
                 acknowledged := true }],
            was_installed := wi, events := ev } := by
        rw [criticalStep]
        simp only [newCritical_eq_step_cond, hc, Bool.false_eq_true, if_false]
      rw [hstep]
      rcases ih repos (bl ++ [a.repository])
          (sn ++ [{ repository := a.repository, reason := a.reason, link := a.link,
                    acknowledged := true }]) wi ev hnd' with ⟨h1, h2, h3⟩
      refine ⟨?_, ?_, ?_⟩
      · rw [h1]
        simp [hc]
      · rw [h2]
        simp [List.filter_cons, hc]
      · rw [h3]
        simp [hc]
    · have hstep : criticalStep instored
          { repos := repos, blacklist := bl, storedNew := sn, was_installed := wi,
            events := ev } a =
          { repos := removeByName repos a.repository,
            blacklist := bl ++ [a.repository],
            storedNew := sn ++
              [{ repository := a.repository, reason := a.reason, link := a.link,
                 acknowledged := false }],
            was_installed := true,
            events := ev ++ [Event.forcedUninstall a.repository] } := by
        rw [criticalStep]
        simp only [newCritical_eq_step_cond, hc, if_true]
      rw [hstep]
      rcases ih (removeByName repos a.repository) (bl ++ [a.repository])
          (sn ++ [{ repository := a.repository, reason := a.reason, link := a.link,
                    acknowledged := false }]) true
          (ev ++ [Event.forcedUninstall a.repository]) hnd' with ⟨h1, h2, h3⟩
      have hinv : ∀ b ∈ rest,
          newCritical instored (removeByName repos a.repository) b =
            newCritical instored repos b := by
        intro b hb
        unfold newCritical
        rw [knownInstalled_removeByName _ _ _ (hna b hb)]
      refine ⟨?_, ?_, ?_⟩
      · rw [h1, mapCongrOn _ _ rest
          (fun b hb => by rw [hinv b hb])]
        simp [hc]
      · rw [h2, filterCongrOn _ _ rest hinv]
        simp [List.filter_cons, hc]
      · rw [h3, anyCongrOn _ _ rest hinv]
        simp [hc]

/-- The advisory loop of one `handle_critical_repositories` run, as a single
accumulator value. -/
def criticalRun (st : HacsState) (critical : List Advisory) : CriticalAcc :=
  critical.foldl
    (criticalStep (st.storedCritical.map (fun stored => stored.repository)))
    { repos := st.repositories, blacklist := st.blacklist, storedNew := [],
      was_installed := false, events := [] }

theorem handle_critical_eq (st : HacsState) (a : Advisory) (rest : List Advisory) :
    handle_critical_repositories st (some (a :: rest)) =
      ({ st with
          repositories := (criticalRun st (a :: rest)).repos
          blacklist := (criticalRun st (a :: rest)).blacklist
          storedCritical := (criticalRun st (a :: rest)).storedNew },
        (criticalRun st (a :: rest)).events ++ [Event.saveCritical] ++
          if (criticalRun st (a :: rest)).was_installed then [Event.requestRestart]
          else []) := rfl

theorem criticalRun_characterization (st : HacsState) (critical : List Advisory)
    (hnd : (critical.map (fun adv => lowerStr adv.repository)).Nodup) :
    (criticalRun st critical).storedNew = critical.map (fun adv =>
        { repository := adv.repository, reason := adv.reason, link := adv.link,
          acknowledged := !(newCritical
            (st.storedCritical.map (fun stored => stored.repository))
            st.repositories adv) })
    ∧ (criticalRun st critical).events =
        (critical.filter (newCritical
            (st.storedCritical.map (fun stored => stored.repository))
            st.repositories)).map (fun adv => Event.forcedUninstall adv.repository)
    ∧ (criticalRun st critical).was_installed =
        critical.any (newCritical
            (st.storedCritical.map (fun stored => stored.repository))
            st.repositories) := by
  have h := criticalFold_characterization
    (st.storedCritical.map (fun stored => stored.repository)) critical
    st.repositories st.blacklist [] false [] hnd
  simpa [criticalRun] using h

/-- C1: for every reconcile run over a non-empty advisory feed whose
repository names are pairwise distinct (case-insensitively), a forced
uninstall of an advisory's repository happens iff that name was absent from
the previously persisted advisory set and the repository is known in the
registry and currently installed; the persisted record is `acknowledged=false`
exactly for those advisories and `acknowledged=true` for all others; and the
restart request is emitted exactly once when at least one forced uninstall
occurred and never otherwise. -/
theorem critical_reconcile_spec (st : HacsState) (critical : List Advisory)
    (hne : critical ≠ [])
    (hnd : (critical.map (fun adv => lowerStr adv.repository)).Nodup) :
    (∀ adv ∈ critical,
      (Event.forcedUninstall adv.repository ∈
          (handle_critical_repositories st (some critical)).2 ↔
        (adv.repository ∉ st.storedCritical.map (fun stored => stored.repository)
          ∧ ∃ r, get_by_name st.repositories adv.repository = some r
              ∧ r.installed = true)))
    ∧ (handle_critical_repositories st (some critical)).1.storedCritical =
        critical.map (fun adv =>
          { repository := adv.repository, reason := adv.reason, link := adv.link,
            acknowledged := !(newCritical
              (st.storedCritical.map (fun stored => stored.repository))
              st.repositories adv) })
    ∧ (handle_critical_repositories st (some critical)).2.count Event.requestRestart =
        (if critical.any (newCritical
              (st.storedCritical.map (fun stored => stored.repository))
              st.repositories)
         then 1 else 0) := by
  rcases critical with _ | ⟨a, rest⟩
  · exact absurd rfl hne
  rcases criticalRun_characterization st (a :: rest) hnd with ⟨h1, h2, h3⟩
  rw [handle_critical_eq]
  dsimp only
  refine ⟨?_, h1, ?_⟩
  · intro adv hadv
    constructor
    · intro hmem
      simp only [List.mem_append] at hmem
      rcases hmem with (hmem | hmem) | hmem
      · rw [h2] at hmem
        rcases List.mem_map.mp hmem with ⟨b, hb, heq⟩
        rcases List.mem_filter.mp hb with ⟨hbmem, hbcond⟩
        have hrep : b.repository = adv.repository := by
          simpa using heq
        have hb_eq : b = adv := by
          apply List.inj_on_of_nodup_map hnd hbmem hadv
          rw [hrep]
        rw [hb_eq] at hbcond
        exact (newCritical_iff _ _ _).mp hbcond
      · simp at hmem
      · split at hmem <;> simp at hmem
    · intro hcond
      have hc : newCritical
          (st.storedCritical.map (fun stored => stored.repository))
          st.repositories adv = true := (newCritical_iff _ _ _).mpr hcond
      have hin : Event.forcedUninstall adv.repository ∈
          (criticalRun st (a :: rest)).events := by
        rw [h2]
        exact List.mem_map.mpr ⟨adv, List.mem_filter.mpr ⟨hadv, hc⟩, rfl⟩
      simp only [List.mem_append]
      exact Or.inl (Or.inl hin)
  · have hz : ((criticalRun st (a :: rest)).events.count Event.requestRestart) = 0 := by
      rw [h2, List.count_eq_zero]
      intro hmem
      rcases List.mem_map.mp hmem with ⟨b, _, heq⟩
      exact Event.noConfusion heq
    rw [List.count_append, List.count_append, hz, h3]
    by_cases hany : (a :: rest).any (newCritical
        (st.storedCritical.map (fun stored => stored.repository)) st.repositories)
    · simp [hany]
    · simp [hany]

/-- Demo inputs for the critical-guard witnesses. -/
def demoState : HacsState :=
  { repositories := demoRepos, blacklist := [], default := [], categories := [],
    storedCritical := [], background_task := false }

/-- Demo advisory used by witnesses. -/
def demoAdvisory : Advisory :=
  { repository := "alice/theme-x", reason := "malware", link := "l" }

theorem critical_reconcile_spec_witness :
    Event.forcedUninstall "alice/theme-x" ∈
      (handle_critical_repositories demoState (some [demoAdvisory])).2 :=
  ((critical_reconcile_spec demoState [demoAdvisory] (by decide) (by decide)).1
      demoAdvisory (by decide)).mpr
    ⟨by decide,
     ⟨{ uid := 1, full_name := "Alice/theme-x", category := "theme", installed := true },
      by decide, rfl⟩⟩

/-- C3: running the guard twice in a row with the remote feed unchanged —
including an unchanged failing or empty fetch — produces no forced uninstall
and no restart request on the second run, for every starting state. -/
theorem critical_reconcile_idempotent (st : HacsState) (fetch : Option (List Advisory)) :
    (∀ n, Event.forcedUninstall n ∉
        (handle_critical_repositories
          (handle_critical_repositories st fetch).1 fetch).2)
    ∧ Event.requestRestart ∉
        (handle_critical_repositories
          (handle_critical_repositories st fetch).1 fetch).2 := by
  rcases fetch with _ | critical
  · simp [handle_critical_repositories]
  rcases critical with _ | ⟨a, rest⟩
  · simp [handle_critical_repositories]
  set st₁ := (handle_critical_repositories st (some (a :: rest))).1 with hst₁
  have hnames : st₁.storedCritical.map (fun stored => stored.repository) =
      (a :: rest).map (fun adv => adv.repository) := by
    rw [hst₁, handle_critical_eq]
    dsimp only
    rw [criticalRun]
    simpa using criticalFold_storedNew_names _ (a :: rest) _
  have hinst : ∀ adv ∈ (a :: rest),
      (st₁.storedCritical.map (fun stored => stored.repository)).contains
        adv.repository = true := by
    intro adv hadv
    rw [hnames]
    have hm : adv.repository ∈ (a :: rest).map (fun adv => adv.repository) :=
      List.mem_map.mpr ⟨adv, hadv, rfl⟩
    simpa [List.contains, List.elem_eq_mem] using hm
  rcases criticalFold_all_instored _ (a :: rest) hinst
      { repos := st₁.repositories, blacklist := st₁.blacklist, storedNew := [],
        was_installed := false, events := [] } with ⟨he, hw⟩
  have he' : (criticalRun st₁ (a :: rest)).events = [] := by
    rw [criticalRun]
    exact he
  have hw' : (criticalRun st₁ (a :: rest)).was_installed = false := by
    rw [criticalRun]
    exact hw
  rw [handle_critical_eq st₁ a rest]
  dsimp only
  rw [he', hw']
  constructor
  · intro n hn
    simp at hn
  · simp

/-! Blacklist enforcement (`clear_out_blacklisted_repositories`). -/

/-- Accumulator for the blacklist loop: current registry, the `need_to_save`
flag, and emitted warnings. -/
structure ClearAcc where
  repos : List Repository
  need_to_save : Bool
  events : List Event
deriving Repr

/-- One iteration of the `for repository in self.common.blacklist` loop of
`clear_out_blacklisted_repositories`: when the name is known, look it up; an
installed match is only warned about, a non-installed match is removed
(`repository.remove()`) and `need_to_save` is set. -/
def clearStep (acc : ClearAcc) (name : String) : ClearAcc :=
  if is_known acc.repos name then
    match get_by_name acc.repos name with
    | some repo =>
      if repo.installed then
        { acc with events := acc.events ++ [Event.warn repo.full_name] }
      else
        { repos := removeByName acc.repos name, need_to_save := true,
          events := acc.events }
    | none => acc
  else acc

/-- Translation of `Hacs.clear_out_blacklisted_repositories`: run the loop,
then `data.async_write()` exactly when `need_to_save` is set. -/
def clear_out_blacklisted_repositories (st : HacsState) : HacsState × List Event :=
  let acc := st.blacklist.foldl clearStep
    { repos := st.repositories, need_to_save := false, events := [] }
  ({ st with repositories := acc.repos },
    acc.events ++ if acc.need_to_save then [Event.dataWrite] else [])

/-- Whether a blacklist name currently triggers a removal: it resolves to a
known repository that is not installed. -/
def removable (repos : List Repository) (name : String) : Bool :=
  match get_by_name repos name with
  | some r => !r.installed
  | none => false

theorem is_known_eq_isSome (repos : List Repository) (name : String) :
    is_known repos name = (get_by_name repos name).isSome := by
  induction repos with
  | nil => rfl
  | cons r rest ih =>
    by_cases hr : lowerEq r.full_name name
    · have h1 : (lowerStr name == lowerStr r.full_name) = true := by
        have h2 : lowerStr r.full_name = lowerStr name := by
          simpa [lowerEq] using hr
        exact beq_iff_eq.mpr h2.symm
      simp [is_known, get_by_name, hr, List.contains_cons, h1]
      exact Or.inl (eq_of_beq h1)
    · have h1 : (lowerStr name == lowerStr r.full_name) = false := by
        have h2 : lowerStr r.full_name ≠ lowerStr name := by
          intro he
          exact hr (by simp [lowerEq, he])
        exact beq_eq_false_iff_ne.mpr (fun he => h2 he.symm)
      simp only [is_known, get_by_name, hr, Bool.false_eq_true, if_false,
        List.map_cons, List.contains_cons, h1, Bool.false_or]
      exact ih

theorem mem_removeByName (repos : List Repository) (name : String) (r : Repository)
    (h : r ∈ removeByName repos name) : r ∈ repos := by
  induction repos with
  | nil => simpa [removeByName] using h
  | cons x rest ih =>
    by_cases hx : lowerEq x.full_name name
    · simp only [removeByName, hx, if_true] at h
      exact List.mem_cons_of_mem _ h
    · simp only [removeByName, hx, Bool.false_eq_true, if_false,
        List.mem_cons] at h
      rcases h with h | h
      · exact h ▸ List.mem_cons_self _ _
      · exact List.mem_cons_of_mem _ (ih h)

theorem mem_removeByName_of_ne_found (repos : List Repository) (name : String)
    (r : Repository) (hmem : r ∈ repos)
    (hne : get_by_name repos name ≠ some r) : r ∈ removeByName repos name := by
  induction repos with
  | nil => cases hmem
  | cons x rest ih =>
    by_cases hx : lowerEq x.full_name name
    · simp only [get_by_name, hx, if_true] at hne
      simp only [removeByName, hx, if_true]
      rcases List.mem_cons.mp hmem with h | h
      · exact absurd (by rw [h]) hne
      · exact h
    · simp only [get_by_name, hx, Bool.false_eq_true, if_false] at hne
      simp only [removeByName, hx, Bool.false_eq_true, if_false, List.mem_cons]
      rcases List.mem_cons.mp hmem with h | h
      · exact Or.inl h
      · exact Or.inr (ih h hne)

theorem not_mem_removeByName_of_found (repos : List Repository) (name : String)
    (r : Repository)
    (hnd : (repos.map (fun x => lowerStr x.full_name)).Nodup)
    (hfound : get_by_name repos name = some r) : r ∉ removeByName repos name := by
  induction repos with
  | nil => simp [get_by_name] at hfound
  | cons x rest ih =>
    have hnd' : ((rest.map (fun x => lowerStr x.full_name)).Nodup) :=
      (List.nodup_cons.mp (by simpa using hnd)).2
    have hhead : lowerStr x.full_name ∉ rest.map (fun x => lowerStr x.full_name) :=
      (List.nodup_cons.mp (by simpa using hnd)).1
    by_cases hx : lowerEq x.full_name name
    · simp only [get_by_name, hx, if_true, Option.some.injEq] at hfound
      simp only [removeByName, hx, if_true]
      intro hmem
      apply hhead
      rw [hfound]
      exact List.mem_map.mpr ⟨r, hmem, rfl⟩
    · simp only [get_by_name, hx, Bool.false_eq_true, if_false] at hfound
      simp only [removeByName, hx, Bool.false_eq_true, if_false, List.mem_cons]
      rintro (h | h)
      · rcases get_by_name_some rest name r hfound with ⟨_, hlow⟩
        rw [h] at hlow
        simp [lowerEq, hlow] at hx
      · exact ih hnd' hfound h

theorem removeByName_sublist (repos : List Repository) (name : String) :
    List.Sublist (removeByName repos name) repos := by
  induction repos with
  | nil => simp [removeByName]
  | cons x rest ih =>
    by_cases hx : lowerEq x.full_name name
    · simp only [removeByName, hx, if_true]
      exact List.sublist_cons_self x rest
    · simp only [removeByName, hx, Bool.false_eq_true, if_false]
      exact List.Sublist.cons₂ x ih

theorem clearStep_cases (acc : ClearAcc) (name : String) :
    (get_by_name acc.repos name = none ∧ clearStep acc name = acc)
  ∨ (∃ repo, get_by_name acc.repos name = some repo ∧ repo.installed = true ∧
      clearStep acc name =
        { acc with events := acc.events ++ [Event.warn repo.full_name] })
  ∨ (∃ repo, get_by_name acc.repos name = some repo ∧ repo.installed = false ∧
      clearStep acc name =
        { repos := removeByName acc.repos name, need_to_save := true,
          events := acc.events }) := by
  cases hg : get_by_name acc.repos name with
  | none =>
    left
    have hk : is_known acc.repos name = false := by
      rw [is_known_eq_isSome, hg]
      rfl
    refine ⟨rfl, ?_⟩
    simp [clearStep, hk]
  | some repo =>
    have hk : is_known acc.repos name = true := by
      rw [is_known_eq_isSome, hg]
      rfl
    by_cases hi : repo.installed
    · right; left
      exact ⟨repo, rfl, hi, by simp [clearStep, hk, hg, hi]⟩
    · right; right
      refine ⟨repo, rfl, by simpa using hi, ?_⟩
      simp [clearStep, hk, hg, hi]

theorem clearStep_nodup (acc : ClearAcc) (name : String)
    (hnd : ((acc.repos.map (fun x => lowerStr x.full_name)).Nodup)) :
    (((clearStep acc name).repos.map (fun x => lowerStr x.full_name)).Nodup) := by
  rcases clearStep_cases acc name with ⟨_, he⟩ | ⟨repo, _, _, he⟩ | ⟨repo, _, _, he⟩ <;>
    rw [he]
  · exact hnd
  · exact hnd
  · exact List.Nodup.sublist
      (List.Sublist.map _ (removeByName_sublist acc.repos name)) hnd

theorem clearFold_repos_subset :
    ∀ (bl : List String) (acc : ClearAcc) (y : Repository),
      y ∈ (bl.foldl clearStep acc).repos → y ∈ acc.repos := by
  intro bl
  induction bl with
  | nil => intro acc y hy; exact hy
  | cons n rest ih =>
    intro acc y hy
    rw [List.foldl_cons] at hy
    have h := ih (clearStep acc n) y hy
    rcases clearStep_cases acc n with ⟨_, he⟩ | ⟨repo, _, _, he⟩ | ⟨repo, _, _, he⟩ <;>
      rw [he] at h
    · exact h
    · exact h
    · exact mem_removeByName _ _ _ h

theorem clearStep_installed_mem (acc : ClearAcc) (name : String) (r : Repository)
    (hmem : r ∈ acc.repos) (hinst : r.installed = true) :
    r ∈ (clearStep acc name).repos := by
  rcases clearStep_cases acc name with ⟨_, he⟩ | ⟨repo, _, _, he⟩ | ⟨repo, hg, hni, he⟩ <;>
    rw [he]
  · exact hmem
  · exact hmem
  · apply mem_removeByName_of_ne_found _ _ _ hmem
    rw [hg]
    intro hc
    rw [Option.some.injEq] at hc
    rw [hc, hinst] at hni
    exact Bool.noConfusion hni

theorem clearFold_installed_mem :
    ∀ (bl : List String) (acc : ClearAcc) (r : Repository),
      r ∈ acc.repos → r.installed = true → r ∈ (bl.foldl clearStep acc).repos := by
  intro bl
  induction bl with
  | nil => intro acc r hr _; exact hr
  | cons n rest ih =>
    intro acc r hr hinst
    rw [List.foldl_cons]
    exact ih (clearStep acc n) r (clearStep_installed_mem acc n r hr hinst) hinst

theorem clearFold_events :
    ∀ (bl : List String) (acc : ClearAcc),
      ∃ t, (bl.foldl clearStep acc).events = acc.events ++ t
        ∧ ∀ e ∈ t, ∃ m, e = Event.warn m := by
  intro bl
  induction bl with
  | nil => intro acc; exact ⟨[], by simp, by simp⟩
  | cons n rest ih =>
    intro acc
    rw [List.foldl_cons]
    rcases clearStep_cases acc n with ⟨_, he⟩ | ⟨repo, _, _, he⟩ | ⟨repo, _, _, he⟩ <;>
      rw [he]
    · exact ih acc
    · rcases ih { acc with events := acc.events ++ [Event.warn repo.full_name] }
        with ⟨t, ht, hw⟩
      dsimp only at ht
      refine ⟨[Event.warn repo.full_name] ++ t, ?_, ?_⟩
      · rw [ht]
        simp
      · intro e hein
        rcases List.mem_append.mp hein with h | h
        · exact ⟨repo.full_name, by simpa using h⟩
        · exact hw e h
    · rcases ih ⟨removeByName acc.repos n, true, acc.events⟩ with ⟨t, ht, hw⟩
      dsimp only at ht
      exact ⟨t, ht, hw⟩

theorem get_by_name_first_of_unique (cur : List Repository) (name : String)
    (r : Repository) (hr : r ∈ cur)
    (hlow : lowerStr r.full_name = lowerStr name)
    (huniq : ∀ y ∈ cur, lowerStr y.full_name = lowerStr name → y = r) :
    get_by_name cur name = some r := by
  induction cur with
  | nil => cases hr
  | cons x rest ih =>
    by_cases hx : lowerEq x.full_name name
    · have hxr : x = r :=
        huniq x (List.mem_cons_self _ _) (by simpa [lowerEq] using hx)
      subst hxr
      simp [get_by_name, hx]
    · have hxr : r ≠ x := by
        intro he
        apply hx
        rw [← he]
        simp [lowerEq, hlow]
      have hr' : r ∈ rest := by
        rcases List.mem_cons.mp hr with h | h
        · exact absurd h hxr
        · exact h
      simp only [get_by_name, hx, Bool.false_eq_true, if_false]
      exact ih hr' (fun y hy hl => huniq y (List.mem_cons_of_mem _ hy) hl)

theorem clearFold_warn :
    ∀ (bl : List String) (acc : ClearAcc),
      ((acc.repos.map (fun x => lowerStr x.full_name)).Nodup) →
      ∀ name ∈ bl, ∀ r ∈ acc.repos, lowerStr r.full_name = lowerStr name →
        r.installed = true →
        Event.warn r.full_name ∈ (bl.foldl clearStep acc).events := by
  intro bl
  induction bl with
  | nil => intro acc _ name hname; cases hname
  | cons n rest ih =>
    intro acc hnd name hname r hr hlow hinst
    rw [List.foldl_cons]
    rcases List.mem_cons.mp hname with hn | hn
    · subst hn
      have hfound : get_by_name acc.repos name = some r := by
        apply get_by_name_first_of_unique acc.repos name r hr hlow
        intro y hy hl
        apply List.inj_on_of_nodup_map hnd hy hr
        rw [hl, hlow]
      rcases clearStep_cases acc name with ⟨hg, _⟩ | ⟨repo, hg, hi, he⟩ |
          ⟨repo, hg, hni, he⟩
      · rw [hg] at hfound
        exact Option.noConfusion hfound
      · rw [hg, Option.some.injEq] at hfound
        rw [he]
        rcases clearFold_events rest
            { acc with events := acc.events ++ [Event.warn repo.full_name] }
          with ⟨t, ht, _⟩
        dsimp only at ht
        rw [ht, hfound]
        simp
      · rw [hg, Option.some.injEq] at hfound
        rw [hfound, hinst] at hni
        exact Bool.noConfusion hni
    · exact ih (clearStep acc n) (clearStep_nodup acc n hnd) name hn r
        (clearStep_installed_mem acc n r hr hinst) hlow hinst

theorem clearFold_removed :
    ∀ (bl : List String) (acc : ClearAcc),
      ((acc.repos.map (fun x => lowerStr x.full_name)).Nodup) →
      ∀ name ∈ bl, ∀ r ∈ acc.repos, lowerStr r.full_name = lowerStr name →
        r.installed = false → r ∉ (bl.foldl clearStep acc).repos := by
  intro bl
  induction bl with
  | nil => intro acc _ name hname; cases hname
  | cons n rest ih =>
    intro acc hnd name hname r hr hlow hninst
    rw [List.foldl_cons]
    rcases List.mem_cons.mp hname with hn | hn
    · subst hn
      have hfound : get_by_name acc.repos name = some r := by
        apply get_by_name_first_of_unique acc.repos name r hr hlow
        intro y hy hl
        apply List.inj_on_of_nodup_map hnd hy hr
        rw [hl, hlow]
      rcases clearStep_cases acc name with ⟨hg, _⟩ | ⟨repo, hg, hi, he⟩ |
          ⟨repo, hg, hni, he⟩
      · rw [hg] at hfound
        exact Option.noConfusion hfound
      · rw [hg, Option.some.injEq] at hfound
        rw [hfound, hninst] at hi
        exact Bool.noConfusion hi
      · rw [he]
        intro hcontra
        have hmem := clearFold_repos_subset rest _ r hcontra
        dsimp only at hmem
        exact not_mem_removeByName_of_found acc.repos name r hnd hfound hmem
    · by_cases hstep : r ∈ (clearStep acc n).repos
      · exact ih (clearStep acc n) (clearStep_nodup acc n hnd) name hn r hstep
          hlow hninst
      · intro hcontra
        exact hstep (clearFold_repos_subset rest _ r hcontra)

theorem clearFold_need_to_save :
    ∀ (bl : List String) (acc : ClearAcc),
      (bl.foldl clearStep acc).need_to_save =
        (acc.need_to_save || bl.any (fun name => removable acc.repos name)) := by
  intro bl
  induction bl with
  | nil => intro acc; simp
  | cons n rest ih =>
    intro acc
    rw [List.foldl_cons, ih]
    rcases clearStep_cases acc n with ⟨hg, he⟩ | ⟨repo, hg, hi, he⟩ |
        ⟨repo, hg, hni, he⟩ <;> rw [he]
    · have hrem : removable acc.repos n = false := by
        simp [removable, hg]
      simp [List.any_cons, hrem]
    · have hrem : removable acc.repos n = false := by
        simp [removable, hg, hi]
      simp [List.any_cons, hrem]
    · have hrem : removable acc.repos n = true := by
        simp [removable, hg, hni]
      simp [List.any_cons, hrem]

theorem clearFold_events_count (bl : List String) (acc : ClearAcc) :
    ((bl.foldl clearStep acc).events.count Event.dataWrite) =
      acc.events.count Event.dataWrite := by
  rcases clearFold_events bl acc with ⟨t, ht, hw⟩
  rw [ht, List.count_append]
  have hz : t.count Event.dataWrite = 0 := by
    rw [List.count_eq_zero]
    intro hmem
    rcases hw _ hmem with ⟨m, hm⟩
    exact Event.noConfusion hm
  rw [hz]
  omega

theorem clear_out_eq (st : HacsState) :
    clear_out_blacklisted_repositories st =
      ({ st with
          repositories := (st.blacklist.foldl clearStep
            { repos := st.repositories, need_to_save := false, events := [] }).repos },
        (st.blacklist.foldl clearStep
          { repos := st.repositories, need_to_save := false, events := [] }).events ++
          if (st.blacklist.foldl clearStep
              { repos := st.repositories, need_to_save := false,
                events := [] }).need_to_save
          then [Event.dataWrite] else []) := rfl

/-- C6: for every blacklist name resolving to a known repository (registry
names assumed case-insensitively unique, the registry invariant): an
installed match survives enforcement and is warned about; a non-installed
match is unregistered; and the registry is written exactly once when at
least one removal occurred and zero times otherwise. -/
theorem blacklist_enforcer_spec (st : HacsState)
    (hnd : ((st.repositories.map (fun x => lowerStr x.full_name)).Nodup)) :
    (∀ name ∈ st.blacklist, ∀ r ∈ st.repositories,
      lowerStr r.full_name = lowerStr name →
        (r.installed = true →
          r ∈ (clear_out_blacklisted_repositories st).1.repositories
          ∧ Event.warn r.full_name ∈ (clear_out_blacklisted_repositories st).2)
        ∧ (r.installed = false →
          r ∉ (clear_out_blacklisted_repositories st).1.repositories))
    ∧ (clear_out_blacklisted_repositories st).2.count Event.dataWrite =
        (if st.blacklist.any (fun name => removable st.repositories name)
         then 1 else 0) := by
  rw [clear_out_eq]
  dsimp only
  constructor
  · intro name hname r hr hlow
    constructor
    · intro hinst
      constructor
      · exact clearFold_installed_mem st.blacklist _ r hr hinst
      · rw [List.mem_append]
        exact Or.inl (clearFold_warn st.blacklist _ hnd name hname r hr hlow hinst)
    · intro hninst
      exact clearFold_removed st.blacklist _ hnd name hname r hr hlow hninst
  · rw [List.count_append, clearFold_events_count, clearFold_need_to_save]
    dsimp only
    by_cases hany : st.blacklist.any (fun name => removable st.repositories name)
    · simp [hany]
    · simp [hany]

/-- Demo state for the blacklist-enforcer witness: one installed and one
non-installed blacklisted repository. -/
def demoClearState : HacsState :=
  { repositories := demoRepos, blacklist := ["ALICE/theme-x", "Bob/plugin-y"],
    default := [], categories := [], storedCritical := [],
    background_task := false }

theorem blacklist_enforcer_spec_witness :
    ((demoClearState.repositories.map (fun x => lowerStr x.full_name)).Nodup)
    ∧ (∀ name ∈ demoClearState.blacklist, ∀ r ∈ demoClearState.repositories,
      lowerStr r.full_name = lowerStr name →
        (r.installed = true →
          r ∈ (clear_out_blacklisted_repositories demoClearState).1.repositories
          ∧ Event.warn r.full_name ∈
              (clear_out_blacklisted_repositories demoClearState).2)
        ∧ (r.installed = false →
          r ∉ (clear_out_blacklisted_repositories demoClearState).1.repositories))
    ∧ (clear_out_blacklisted_repositories demoClearState).2.count Event.dataWrite =
        (if demoClearState.blacklist.any
            (fun name => removable demoClearState.repositories name)
         then 1 else 0) :=
  ⟨by decide,
   (blacklist_enforcer_spec demoClearState (by decide)).1,
   (blacklist_enforcer_spec demoClearState (by decide)).2⟩

/-! Known-repository load and the three reconciliation sweeps. -/

/-- Modelled from the spec: `factory.safe_register` runs the registration
helper, which is outside this file; per the spec registration is idempotent
(registering an already-known name is a no-op) and a newly created entry is
not installed. -/
def registerKnown (repos : List Repository) (name category : String) :
    List Repository :=
  if is_known repos name then repos
  else repos ++ [{ uid := 0, full_name := name, category := category,
                   installed := false }]

/-- Translation of `Hacs.get_repositories`: fetch the default list (plus org
repositories) for every active category — `feed` supplies the merged remote
answer per category — and append each name not already present to
`common.default`. -/
def get_repositories (st : HacsState) (feed : String → List String) :
    HacsState × List (String × String) :=
  let pairs :=
    (st.categories.map (fun category =>
      (feed category).map (fun repo => (category, repo)))).join
  let newDefault := pairs.foldl
    (fun d p => if d.contains p.2 then d else d ++ [p.2]) st.default
  ({ st with default := newDefault }, pairs)

/-- The blacklist-merge loop of `load_known_repositories`: append each remote
blacklist item not already present (exact string membership, as in the
source). -/
def blacklistMergeStep (s : HacsState) (item : String) : HacsState :=
  if s.blacklist.contains item then s
  else { s with blacklist := s.blacklist ++ [item] }

/-- Translation of `Hacs.load_known_repositories`: fetch the per-category
lists, merge the remote blacklist feed into `common.blacklist`, then queue a
registration for every fetched repository that is neither blacklisted nor
already known; the queued registrations run when `factory.execute()` is
awaited after the loop, so the skip tests all read the pre-loop registry. -/
def load_known_repositories (st : HacsState) (feed : String → List String)
    (blacklistFeed : List String) : HacsState × List Event :=
  let fetched := get_repositories st feed
  let st₂ := blacklistFeed.foldl blacklistMergeStep fetched.1
  let queued := fetched.2.filter
    (fun p => !(st₂.blacklist.contains p.2) && !(is_known st₂.repositories p.2))
  ({ st₂ with repositories :=
      queued.foldl (fun repos p => registerKnown repos p.2 p.1) st₂.repositories },
   [])

/-- Translation of `Hacs.recuring_tasks_installed`.  `factoryFails` models
the awaited task-runner batch raising: the remaining statements of the method
then never run and the exception propagates out of the sweep.  The Bool of
the result records whether the sweep ran to completion. -/
def recuring_tasks_installed (st : HacsState) (factoryFails : Bool)
    (fetch : Option (List Advisory)) : HacsState × List Event × Bool :=
  let st₁ := { st with background_task := true }
  if factoryFails then (st₁, [Event.statusFire], false)
  else
    let run := handle_critical_repositories st₁ fetch
    let st₃ := { run.1 with background_task := false }
    (st₃, [Event.statusFire] ++ run.2 ++ [Event.statusFire, Event.dataWrite], true)

/-- Translation of `Hacs.recuring_tasks_all`: set the flag, fire status, run
the bulk-update batch (`factoryFails` models it raising), reload known
repositories, enforce the blacklist, clear the flag, write the registry, fire
status and repository notifications. -/
def recuring_tasks_all (st : HacsState) (factoryFails : Bool)
    (feed : String → List String) (blacklistFeed : List String) :
    HacsState × List Event × Bool :=
  let st₁ := { st with background_task := true }
  if factoryFails then (st₁, [Event.statusFire], false)
  else
    let loaded := load_known_repositories st₁ feed blacklistFeed
    let cleared := clear_out_blacklisted_repositories loaded.1
    let st₄ := { cleared.1 with background_task := false }
    (st₄, [Event.statusFire] ++ loaded.2 ++ cleared.2 ++
      [Event.dataWrite, Event.statusFire, Event.repositoryFire], true)

/-- Translation of `Hacs.startup_tasks`: set the flag, fire status, run the
critical startup check, the critical guard, the known-repository load and the
blacklist enforcement, arm the timers, fire the forced reload, run one
installed sweep, then clear the flag, fire status and write the registry. -/
def startup_tasks (st : HacsState) (factoryFails : Bool)
    (fetch : Option (List Advisory)) (feed : String → List String)
    (blacklistFeed : List String) : HacsState × List Event × Bool :=
  let st₁ := { st with background_task := true }
  let started := handle_critical_repositories_startup st₁
  let critical := handle_critical_repositories started.1 fetch
  let loaded := load_known_repositories critical.1 feed blacklistFeed
  let cleared := clear_out_blacklisted_repositories loaded.1
  let inner := recuring_tasks_installed cleared.1 factoryFails fetch
  if inner.2.2 then
    let st₆ := { inner.1 with background_task := false }
    (st₆, [Event.statusFire] ++ started.2 ++ critical.2 ++ loaded.2 ++ cleared.2 ++
      [Event.reloadFire] ++ inner.2.1 ++ [Event.statusFire, Event.dataWrite], true)
  else
    (inner.1, [Event.statusFire] ++ started.2 ++ critical.2 ++ loaded.2 ++
      cleared.2 ++ [Event.reloadFire] ++ inner.2.1, false)

/-! Sweep-level lemmas. -/

theorem load_known_events (st : HacsState) (feed : String → List String)
    (blacklistFeed : List String) :
    (load_known_repositories st feed blacklistFeed).2 = [] := rfl

theorem criticalFold_events_shape (instored : List String) :
    ∀ (critical : List Advisory) (acc : CriticalAcc),
      ∀ e ∈ (critical.foldl (criticalStep instored) acc).events,
        e ∈ acc.events ∨ ∃ m, e = Event.forcedUninstall m := by
  intro critical
  induction critical with
  | nil => intro acc e he; exact Or.inl he
  | cons a rest ih =>
    intro acc e he
    rw [List.foldl_cons] at he
    rcases ih (criticalStep instored acc a) e he with h | h
    · unfold criticalStep at h
      split at h
      · dsimp only at h
        rcases List.mem_append.mp h with h | h
        · exact Or.inl h
        · exact Or.inr ⟨a.repository, by simpa using h⟩
      · exact Or.inl h
    · exact Or.inr h

theorem handle_critical_no_dataWrite (st : HacsState)
    (fetch : Option (List Advisory)) :
    ((handle_critical_repositories st fetch).2.count Event.dataWrite) = 0 := by
  rcases fetch with _ | critical
  · rfl
  rcases critical with _ | ⟨a, rest⟩
  · rfl
  rw [handle_critical_eq]
  dsimp only
  rw [List.count_append, List.count_append]
  have h1 : ((criticalRun st (a :: rest)).events.count Event.dataWrite) = 0 := by
    rw [List.count_eq_zero]
    intro hmem
    rw [criticalRun] at hmem
    rcases criticalFold_events_shape _ (a :: rest) _ _ hmem with h | ⟨m, hm⟩
    · simp at h
    · exact Event.noConfusion hm
  rw [h1]
  have h2 : (([Event.saveCritical].count Event.dataWrite)) = 0 := rfl
  rw [h2]
  split <;> rfl

theorem startup_alert_no_dataWrite (st : HacsState) :
    ((handle_critical_repositories_startup st).2.count Event.dataWrite) = 0 := by
  rw [startup_alert_events]
  dsimp only
  split <;> rfl

theorem installed_sweep_write_count (st : HacsState)
    (fetch : Option (List Advisory)) :
    ((recuring_tasks_installed st false fetch).2.1.count Event.dataWrite) = 1 := by
  have h1 : (recuring_tasks_installed st false fetch).2.1 =
      [Event.statusFire] ++
        (handle_critical_repositories { st with background_task := true } fetch).2 ++
        [Event.statusFire, Event.dataWrite] := rfl
  rw [h1, List.count_append, List.count_append, handle_critical_no_dataWrite]
  rfl

theorem all_sweep_write_count (st : HacsState) (feed : String → List String)
    (blacklistFeed : List String) :
    ((recuring_tasks_all st false feed blacklistFeed).2.1.count Event.dataWrite) =
      1 + ((clear_out_blacklisted_repositories
        (load_known_repositories { st with background_task := true } feed
          blacklistFeed).1).2.count Event.dataWrite) := by
  have h1 : (recuring_tasks_all st false feed blacklistFeed).2.1 =
      [Event.statusFire] ++
        (load_known_repositories { st with background_task := true } feed
          blacklistFeed).2 ++
        (clear_out_blacklisted_repositories
          (load_known_repositories { st with background_task := true } feed
            blacklistFeed).1).2 ++
        [Event.dataWrite, Event.statusFire, Event.repositoryFire] := rfl
  rw [h1, List.count_append, List.count_append, List.count_append,
    load_known_events]
  have h2 : (([] : List Event).count Event.dataWrite) = 0 := rfl
  rw [h2]
  have h3 : (([Event.dataWrite, Event.statusFire, Event.repositoryFire].count
      Event.dataWrite)) = 1 := rfl
  rw [h3]
  have h4 : (([Event.statusFire].count Event.dataWrite)) = 0 := rfl
  rw [h4]
  omega

theorem startup_sweep_write_count (st : HacsState)
    (fetch : Option (List Advisory)) (feed : String → List String)
    (blacklistFeed : List String) :
    ((startup_tasks st false fetch feed blacklistFeed).2.1.count Event.dataWrite) =
      2 + ((clear_out_blacklisted_repositories
        (load_known_repositories
          (handle_critical_repositories
            (handle_critical_repositories_startup
              { st with background_task := true }).1 fetch).1
          feed blacklistFeed).1).2.count Event.dataWrite) := by
  have h1 : (startup_tasks st false fetch feed blacklistFeed).2.1 =
      [Event.statusFire] ++
        (handle_critical_repositories_startup
          { st with background_task := true }).2 ++
        (handle_critical_repositories
          (handle_critical_repositories_startup
            { st with background_task := true }).1 fetch).2 ++
        (load_known_repositories
          (handle_critical_repositories
            (handle_critical_repositories_startup
              { st with background_task := true }).1 fetch).1
          feed blacklistFeed).2 ++
        (clear_out_blacklisted_repositories
          (load_known_repositories
            (handle_critical_repositories
              (handle_critical_repositories_startup
                { st with background_task := true }).1 fetch).1
            feed blacklistFeed).1).2 ++
        [Event.reloadFire] ++
        (recuring_tasks_installed
          (clear_out_blacklisted_repositories
            (load_known_repositories
              (handle_critical_repositories
                (handle_critical_repositories_startup
                  { st with background_task := true }).1 fetch).1
              feed blacklistFeed).1).1 false fetch).2.1 ++
        [Event.statusFire, Event.dataWrite] := rfl
  rw [h1]
  simp only [List.count_append]
  rw [load_known_events, startup_alert_no_dataWrite, handle_critical_no_dataWrite,
    installed_sweep_write_count]
  have h2 : (([] : List Event).count Event.dataWrite) = 0 := rfl
  rw [h2]
  have h3 : (([Event.statusFire].count Event.dataWrite)) = 0 := rfl
  have h4 : (([Event.reloadFire].count Event.dataWrite)) = 0 := rfl
  have h5 : (([Event.statusFire, Event.dataWrite].count Event.dataWrite)) = 1 := rfl
  rw [h3, h4, h5]
  omega

/-- C2 counterexample: on a concrete state, an exception in a step of the
installed sweep (the task-runner batch raising) aborts the sweep with the
background-task flag still set: the flag is not cleared on the exceptional
path, so no guaranteed-cleanup scope exists in the code. -/
theorem sweep_flag_not_cleared_on_failure :
    (recuring_tasks_installed demoState true none).2.2 = false
    ∧ (recuring_tasks_installed demoState true none).1.background_task = true :=
  ⟨rfl, rfl⟩

/-- C2 amended: every sweep sets the background-task flag on entry and clears
it exactly when it runs to completion; a sweep aborted by an exception in one
of its steps leaves the flag set. -/
theorem sweep_flag_cleared_iff_completed (st : HacsState) (factoryFails : Bool)
    (fetch : Option (List Advisory)) (feed : String → List String)
    (blacklistFeed : List String) :
    ((recuring_tasks_installed st factoryFails fetch).1.background_task =
        !(recuring_tasks_installed st factoryFails fetch).2.2)
    ∧ ((recuring_tasks_all st factoryFails feed blacklistFeed).1.background_task =
        !(recuring_tasks_all st factoryFails feed blacklistFeed).2.2)
    ∧ ((startup_tasks st factoryFails fetch feed
          blacklistFeed).1.background_task =
        !(startup_tasks st factoryFails fetch feed blacklistFeed).2.2) := by
  cases factoryFails <;> exact ⟨rfl, rfl, rfl⟩

/-- C4 counterexample: a concrete full sweep (one known non-installed
blacklisted repository) performs two registry writes — one inside blacklist
enforcement and one at the end of the sweep — not exactly one. -/
theorem full_sweep_two_writes :
    ((recuring_tasks_all demoClearState false (fun _ => []) []).2.1.count
      Event.dataWrite) = 2 := by decide

/-- C4 amended: a failure-free installed sweep writes the registry exactly
once, at its end; a failure-free full sweep writes once at its end plus once
more when its blacklist-enforcement step unregistered at least one
repository; a failure-free startup sweep writes once at its end, once inside
its nested installed pass, plus the blacklist-enforcement write when
applicable; blacklist enforcement itself writes at most once. -/
theorem sweep_write_counts (st : HacsState) (fetch : Option (List Advisory))
    (feed : String → List String) (blacklistFeed : List String) :
    ((recuring_tasks_installed st false fetch).2.1.count Event.dataWrite = 1)
    ∧ ((recuring_tasks_all st false feed blacklistFeed).2.1.count Event.dataWrite =
        1 + ((clear_out_blacklisted_repositories
          (load_known_repositories { st with background_task := true } feed
            blacklistFeed).1).2.count Event.dataWrite))
    ∧ ((startup_tasks st false fetch feed blacklistFeed).2.1.count Event.dataWrite =
        2 + ((clear_out_blacklisted_repositories
          (load_known_repositories
            (handle_critical_repositories
              (handle_critical_repositories_startup
                { st with background_task := true }).1 fetch).1
            feed blacklistFeed).1).2.count Event.dataWrite))
    ∧ ((clear_out_blacklisted_repositories st).2.count Event.dataWrite ≤ 1) := by
  refine ⟨installed_sweep_write_count st fetch,
    all_sweep_write_count st feed blacklistFeed,
    startup_sweep_write_count st fetch feed blacklistFeed, ?_⟩
  rw [clear_out_eq]
  dsimp only
  rw [List.count_append, clearFold_events_count]
  have h2 : (([] : List Event).count Event.dataWrite) = 0 := rfl
  rw [h2]
  split
  · exact le_refl 1
  · exact Nat.zero_le 1

theorem blacklistMerge_exists_tail :
    ∀ (items : List String) (s : HacsState),
      ∃ tail, (items.foldl blacklistMergeStep s).blacklist =
        s.blacklist ++ tail := by
  intro items
  induction items with
  | nil => intro s; exact ⟨[], by simp⟩
  | cons item rest ih =>
    intro s
    rw [List.foldl_cons]
    by_cases hc : s.blacklist.contains item
    · have hstep : blacklistMergeStep s item = s := by
        unfold blacklistMergeStep
        rw [if_pos hc]
      rw [hstep]
      exact ih s
    · have hstep : blacklistMergeStep s item =
          { s with blacklist := s.blacklist ++ [item] } := by
        unfold blacklistMergeStep
        rw [if_neg hc]
      rw [hstep]
      rcases ih { s with blacklist := s.blacklist ++ [item] } with ⟨tail, htail⟩
      dsimp only at htail
      exact ⟨[item] ++ tail, by rw [htail, List.append_assoc]⟩

/-- C7 counterexample: the critical guard appends advisory names to the
blacklist unconditionally, so two guard runs over the same advisory feed
leave the blacklist with a duplicated name — it is not duplicate-free. -/
theorem blacklist_duplicates_counterexample :
    ¬ ((handle_critical_repositories
        (handle_critical_repositories demoState (some [demoAdvisory])).1
        (some [demoAdvisory])).1.blacklist.Nodup) := by decide

/-- C7 amended: the blacklist never shrinks during a run — the critical guard
and the known-repository load only append to it and blacklist enforcement
leaves it unchanged — and every advisory processed by the guard ends with its
repository name in the blacklist; names may however repeat, because the guard
appends unconditionally (only the remote-feed merge deduplicates). -/
theorem blacklist_append_only (st : HacsState) (fetch : Option (List Advisory))
    (feed : String → List String) (blacklistFeed : List String)
    (critical : List Advisory) :
    (∃ tail, (handle_critical_repositories st fetch).1.blacklist =
        st.blacklist ++ tail)
    ∧ (∃ tail, (load_known_repositories st feed blacklistFeed).1.blacklist =
        st.blacklist ++ tail)
    ∧ ((clear_out_blacklisted_repositories st).1.blacklist = st.blacklist)
    ∧ (∀ adv ∈ critical,
        adv.repository ∈
          (handle_critical_repositories st (some critical)).1.blacklist) := by
  refine ⟨?_, ?_, rfl, ?_⟩
  · rcases fetch with _ | cs
    · exact ⟨[], by simp [handle_critical_repositories]⟩
    rcases cs with _ | ⟨a, rest⟩
    · exact ⟨[], by simp [handle_critical_repositories]⟩
    · refine ⟨(a :: rest).map (fun adv => adv.repository), ?_⟩
      rw [handle_critical_eq]
      dsimp only
      rw [criticalRun]
      exact criticalFold_blacklist _ (a :: rest) _
  · have h : (load_known_repositories st feed blacklistFeed).1.blacklist =
        (blacklistFeed.foldl blacklistMergeStep
          (get_repositories st feed).1).blacklist := rfl
    rw [h]
    have h2 : (get_repositories st feed).1.blacklist = st.blacklist := rfl
    rcases blacklistMerge_exists_tail blacklistFeed (get_repositories st feed).1
      with ⟨tail, htail⟩
    exact ⟨tail, by rw [htail, h2]⟩
  · intro adv hadv
    rcases critical with _ | ⟨a, rest⟩
    · cases hadv
    · rw [handle_critical_eq]
      dsimp only
      rw [criticalRun, criticalFold_blacklist _ (a :: rest) _]
      dsimp only
      rw [List.mem_append]
      exact Or.inr (List.mem_map.mpr ⟨adv, hadv, rfl⟩)
